import Mathlib

set_option linter.unusedVariables false

/-!
Shallow embedding of the disk-scheduling core of
`src/hardDisk_simulator.py` (class `DiskSchedulingSimulator`):
the five algorithm methods `fcfs`, `sstf`, `scan`, `c_scan`, `c_look`
and their shared inline cost reducer
`total_seek = sum(abs(seq[i] - seq[i-1]) for i in range(1, len(seq)))`.

Cylinders are modelled as `Int` (Python integers); request queues as
`List Int`.  Python's in-place `list.sort()` is modelled by `sortAsc`,
`sorted(xs, reverse=True)` by `sortDesc`, `list.remove(x)` by
`List.erase`, and `min(xs, key=lambda x: abs(x - cur))` (which keeps the
first element attaining the minimal key) by `min_by_dist`.

The Python methods mutate their `requests` argument (`requests.sort()`
in `scan`/`c_scan`/`c_look`, `requests.remove(...)` in `sstf`).  The
embedding is state-passing: each algorithm has a pure result function
returning `(seek_sequence, total_seek)`, and a companion `...Arg`
function giving the contents of the caller's `requests` list after the
call returns.
-/

/-- The shared cost reducer: `sum(abs(seq[i] - seq[i-1]) for i in range(1, len(seq)))`. -/
def total_seek : List Int → Int
  | [] => 0
  | [_] => 0
  | a :: b :: rest => |a - b| + total_seek (b :: rest)

/-- Python's stable ascending `list.sort()` / `sorted(xs)`; on `Int`,
any correct sort yields this list. -/
def sortAsc (l : List Int) : List Int :=
  l.insertionSort (fun a b => a ≤ b)

/-- Python's `sorted(xs, reverse=True)` (descending). -/
def sortDesc (l : List Int) : List Int :=
  l.insertionSort (fun a b => b ≤ a)

instance : DecidableRel (fun a b : Int => b ≤ a) := fun a b => Int.decLe b a

instance : IsTotal Int (fun a b : Int => b ≤ a) := ⟨fun a b => le_total b a⟩

instance : IsTrans Int (fun a b : Int => b ≤ a) :=
  ⟨fun _ _ _ h1 h2 => le_trans h2 h1⟩

instance : IsAntisymm Int (fun a b : Int => b ≤ a) :=
  ⟨fun _ _ h1 h2 => le_antisymm h2 h1⟩

/-- `fcfs(self, head, requests, disk_size)`. -/
def fcfs (head : Int) (requests : List Int) (disk_size : Int) : List Int × Int :=
  let seek_sequence := [head] ++ requests
  (seek_sequence, total_seek seek_sequence)

/-- Contents of the caller's `requests` list after `fcfs` returns
(`fcfs` never mutates it). -/
def fcfsArg (head : Int) (requests : List Int) (disk_size : Int) : List Int :=
  requests

/-- Python's `min(x :: xs, key=lambda r: abs(r - current_head))`:
left-to-right fold keeping the first element with minimal key. -/
def min_by_dist (current_head : Int) (x : Int) : List Int → Int
  | [] => x
  | y :: ys =>
    min_by_dist current_head (if |y - current_head| < |x - current_head| then y else x) ys

/-- The `while requests:` loop of `sstf`, fuelled by the initial queue
length.  Returns the visit order and the final contents of `requests`
(each iteration `remove`s the chosen element). -/
def sstf_loop : Nat → Int → List Int → List Int × List Int
  | 0, _, requests => ([], requests)
  | fuel + 1, current_head, requests =>
    match requests with
    | [] => ([], [])
    | x :: xs =>
      let closest_req := min_by_dist current_head x xs
      let rest := sstf_loop fuel closest_req ((x :: xs).erase closest_req)
      (closest_req :: rest.1, rest.2)

/-- `sstf(self, head, requests, disk_size)`. -/
def sstf (head : Int) (requests : List Int) (disk_size : Int) : List Int × Int :=
  let seek_sequence := head :: (sstf_loop requests.length head requests).1
  (seek_sequence, total_seek seek_sequence)

/-- Contents of the caller's `requests` list after `sstf` returns
(the loop `remove`s every element). -/
def sstfArg (head : Int) (requests : List Int) (disk_size : Int) : List Int :=
  (sstf_loop requests.length head requests).2

/-- `scan(self, head, requests, disk_size, direction="right")`. -/
def scan (head : Int) (requests : List Int) (disk_size : Int)
    (direction : String) : List Int × Int :=
  let sorted_requests := sortAsc requests
  if direction = "right" then
    let right := sorted_requests.filter (fun r => decide (head ≤ r))
    let left := sorted_requests.filter (fun r => decide (r < head))
    let seek_sequence :=
      [head] ++ right ++
        (if left.isEmpty then [] else [disk_size - 1] ++ sortDesc left)
    (seek_sequence, total_seek seek_sequence)
  else
    let left := sorted_requests.filter (fun r => decide (r < head))
    let right := sorted_requests.filter (fun r => decide (head ≤ r))
    let seek_sequence :=
      [head] ++ sortDesc left ++
        (if right.isEmpty then [] else [0] ++ right)
    (seek_sequence, total_seek seek_sequence)

/-- Contents of the caller's `requests` list after `scan` returns
(`requests.sort()` sorts it in place before either branch). -/
def scanArg (head : Int) (requests : List Int) (disk_size : Int)
    (direction : String) : List Int :=
  sortAsc requests

/-- `c_scan(self, head, requests, disk_size)`. -/
def c_scan (head : Int) (requests : List Int) (disk_size : Int) : List Int × Int :=
  let sorted_requests := sortAsc requests
  let right := sorted_requests.filter (fun r => decide (head ≤ r))
  let left := sorted_requests.filter (fun r => decide (r < head))
  let seek_sequence :=
    [head] ++ right ++
      (if left.isEmpty then [] else [disk_size - 1, 0] ++ left)
  (seek_sequence, total_seek seek_sequence)

/-- Contents of the caller's `requests` list after `c_scan` returns. -/
def c_scanArg (head : Int) (requests : List Int) (disk_size : Int) : List Int :=
  sortAsc requests

/-- `c_look(self, head, requests, disk_size)`. -/
def c_look (head : Int) (requests : List Int) (disk_size : Int) : List Int × Int :=
  let sorted_requests := sortAsc requests
  let right := sorted_requests.filter (fun r => decide (head ≤ r))
  let left := sorted_requests.filter (fun r => decide (r < head))
  let seek_sequence :=
    [head] ++ right ++ (if left.isEmpty then [] else left)
  (seek_sequence, total_seek seek_sequence)

/-- Contents of the caller's `requests` list after `c_look` returns. -/
def c_lookArg (head : Int) (requests : List Int) (disk_size : Int) : List Int :=
  sortAsc requests

/-! Sanity checks of the embedding on the documented concrete
scenario (head 50, disk 200, requests `[98,183,37,122,14,124,65,67]`):
FCFS, SCAN toward-max, C-SCAN and C-LOOK reproduce the documented
totals 643, 334, 385 and 325. -/

theorem concrete_fcfs : fcfs 50 [98, 183, 37, 122, 14, 124, 65, 67] 200
    = ([50, 98, 183, 37, 122, 14, 124, 65, 67], 643) := by decide

theorem concrete_scan_right : scan 50 [98, 183, 37, 122, 14, 124, 65, 67] 200 "right"
    = ([50, 65, 67, 98, 122, 124, 183, 199, 37, 14], 334) := by decide

theorem concrete_c_scan : c_scan 50 [98, 183, 37, 122, 14, 124, 65, 67] 200
    = ([50, 65, 67, 98, 122, 124, 183, 199, 0, 14, 37], 385) := by decide

theorem concrete_c_look : c_look 50 [98, 183, 37, 122, 14, 124, 65, 67] 200
    = ([50, 65, 67, 98, 122, 124, 183, 14, 37], 325) := by decide

/-! ### Helper lemmas about the cost reducer -/

theorem total_seek_nonneg : ∀ s : List Int, 0 ≤ total_seek s
  | [] => le_refl 0
  | [_] => le_refl 0
  | a :: b :: rest => by
    have ih := total_seek_nonneg (b :: rest)
    simp only [total_seek]
    exact add_nonneg (abs_nonneg _) ih

theorem total_seek_cons_eq_zero_iff :
    ∀ (a : Int) (t : List Int),
      total_seek (a :: t) = 0 ↔ ∀ x ∈ a :: t, x = a
  | _, [] => by simp [total_seek]
  | a, b :: rest => by
    have ih := total_seek_cons_eq_zero_iff b rest
    have h1 : (0 : Int) ≤ |a - b| := abs_nonneg _
    have h2 := total_seek_nonneg (b :: rest)
    constructor
    · intro h
      simp only [total_seek] at h
      have hab : |a - b| = 0 ∧ total_seek (b :: rest) = 0 := by
        constructor <;> omega
      have hba : a = b := by
        have := abs_eq_zero.mp hab.1
        omega
      intro x hx
      rcases List.mem_cons.mp hx with rfl | hx
      · rfl
      · exact (ih.mp hab.2 x hx).trans hba.symm
    · intro h
      have hba : b = a := h b (by simp)
      have : total_seek (b :: rest) = 0 := by
        refine ih.mpr ?_
        intro x hx
        exact (h x (List.mem_cons_of_mem a hx)).trans hba.symm
      simp only [total_seek, this, add_zero, abs_eq_zero]
      omega

/-! ### Helper lemmas about sorting -/

theorem sortAsc_perm (l : List Int) : (sortAsc l).Perm l :=
  List.perm_insertionSort _ l

theorem sortDesc_perm (l : List Int) : (sortDesc l).Perm l :=
  List.perm_insertionSort _ l

theorem sortAsc_sorted (l : List Int) :
    List.Sorted (fun a b : Int => a ≤ b) (sortAsc l) :=
  List.sorted_insertionSort _ l

theorem sortDesc_sorted (l : List Int) :
    List.Sorted (fun a b : Int => b ≤ a) (sortDesc l) :=
  List.sorted_insertionSort _ l

theorem sortAsc_of_sorted {l : List Int}
    (h : List.Sorted (fun a b : Int => a ≤ b) l) : sortAsc l = l :=
  List.Sorted.insertionSort_eq h

theorem sortAsc_idem (l : List Int) : sortAsc (sortAsc l) = sortAsc l :=
  sortAsc_of_sorted (sortAsc_sorted l)

theorem filter_sortAsc (p : Int → Bool) (l : List Int) :
    (sortAsc l).filter p = sortAsc (l.filter p) :=
  List.eq_of_perm_of_sorted
    (((sortAsc_perm l).filter p).trans (sortAsc_perm (l.filter p)).symm)
    (List.Sorted.filter p (sortAsc_sorted l))
    (sortAsc_sorted (l.filter p))

theorem sortAsc_length (l : List Int) : (sortAsc l).length = l.length :=
  (sortAsc_perm l).length_eq

theorem sortDesc_sortAsc (l : List Int) : sortDesc (sortAsc l) = sortDesc l :=
  List.eq_of_perm_of_sorted
    ((sortDesc_perm (sortAsc l)).trans
      ((sortAsc_perm l).trans (sortDesc_perm l).symm))
    (sortDesc_sorted _) (sortDesc_sorted _)

theorem sortAsc_eq_nil_iff (l : List Int) : sortAsc l = [] ↔ l = [] := by
  constructor
  · intro h
    have hp := sortAsc_perm l
    rw [h] at hp
    exact hp.symm.eq_nil
  · intro h
    subst h
    rfl

theorem sortAsc_isEmpty (l : List Int) : (sortAsc l).isEmpty = l.isEmpty := by
  cases l with
  | nil => rfl
  | cons x xs =>
    have h2 : sortAsc (x :: xs) ≠ [] := by
      intro hh
      exact (List.cons_ne_nil x xs) ((sortAsc_eq_nil_iff _).mp hh)
    rcases hs : sortAsc (x :: xs) with _ | ⟨y, ys⟩
    · exact absurd hs h2
    · simp [hs]

/-- `r < head` is the complement of `head ≤ r`. -/
theorem filter_lt_eq_not_le (head : Int) (l : List Int) :
    l.filter (fun r => decide (r < head))
      = l.filter (fun r => !decide (head ≤ r)) := by
  refine List.filter_congr ?_
  intro x _
  by_cases h : head ≤ x <;> simp [h, not_le, lt_iff_not_le]

theorem filter_partition_perm (head : Int) (l : List Int) :
    (l.filter (fun r => decide (head ≤ r))
      ++ l.filter (fun r => decide (r < head))).Perm l := by
  rw [filter_lt_eq_not_le]
  exact List.filter_append_perm _ l

/-! ### Helper lemmas about the SSTF loop -/

theorem min_by_dist_mem (current_head : Int) :
    ∀ (x : Int) (xs : List Int), min_by_dist current_head x xs ∈ x :: xs := by
  intro x xs
  induction xs generalizing x with
  | nil => simp [min_by_dist]
  | cons y ys ih =>
    simp only [min_by_dist]
    have h := ih (if |y - current_head| < |x - current_head| then y else x)
    rcases List.mem_cons.mp h with h1 | h1
    · rw [h1]
      by_cases hc : |y - current_head| < |x - current_head| <;> simp [hc]
    · exact List.mem_cons_of_mem x (List.mem_cons_of_mem y h1)

theorem sstf_loop_spec :
    ∀ (fuel : Nat) (current_head : Int) (requests : List Int),
      requests.length ≤ fuel →
      (sstf_loop fuel current_head requests).1.Perm requests ∧
        (sstf_loop fuel current_head requests).2 = [] := by
  intro fuel
  induction fuel with
  | zero =>
    intro c rs hlen
    have : rs = [] := List.length_eq_zero.mp (Nat.le_zero.mp hlen)
    subst this
    exact ⟨List.Perm.refl _, rfl⟩
  | succ n ih =>
    intro c rs hlen
    match rs with
    | [] => exact ⟨List.Perm.refl _, rfl⟩
    | x :: xs =>
      have hmem : min_by_dist c x xs ∈ x :: xs := min_by_dist_mem c x xs
      have herase : ((x :: xs).erase (min_by_dist c x xs)).length ≤ n := by
        rw [List.length_erase_of_mem hmem]
        simpa using Nat.le_of_succ_le_succ hlen
      have hrec := ih (min_by_dist c x xs) ((x :: xs).erase (min_by_dist c x xs)) herase
      constructor
      · show (min_by_dist c x xs
            :: (sstf_loop n (min_by_dist c x xs)
                ((x :: xs).erase (min_by_dist c x xs))).1).Perm (x :: xs)
        exact ((hrec.1).cons _).trans (List.perm_cons_erase hmem).symm
      · exact hrec.2

theorem sstf_fst_perm (head : Int) (requests : List Int) (disk_size : Int) :
    (sstf head requests disk_size).1.Perm (head :: requests) :=
  ((sstf_loop_spec requests.length head requests (le_refl _)).1).cons head

theorem sstfArg_eq_nil (head : Int) (requests : List Int) (disk_size : Int) :
    sstfArg head requests disk_size = [] :=
  (sstf_loop_spec requests.length head requests (le_refl _)).2

/-! ### Normal forms for the sorting-based algorithms -/

theorem scan_right_eq (head : Int) (requests : List Int) (disk_size : Int) :
    scan head requests disk_size "right"
      = (head :: sortAsc (requests.filter (fun r => decide (head ≤ r)))
          ++ (if (requests.filter (fun r => decide (r < head))).isEmpty then []
              else (disk_size - 1)
                :: sortDesc (requests.filter (fun r => decide (r < head)))),
         total_seek
           (head :: sortAsc (requests.filter (fun r => decide (head ≤ r)))
            ++ (if (requests.filter (fun r => decide (r < head))).isEmpty then []
                else (disk_size - 1)
                  :: sortDesc (requests.filter (fun r => decide (r < head)))))) := by
  simp only [scan, filter_sortAsc, sortDesc_sortAsc, sortAsc_isEmpty,
    List.singleton_append, List.cons_append, List.nil_append,
    eq_self_iff_true, if_true]

theorem scan_left_eq (head : Int) (requests : List Int) (disk_size : Int) :
    scan head requests disk_size "left"
      = (head :: sortDesc (requests.filter (fun r => decide (r < head)))
          ++ (if (requests.filter (fun r => decide (head ≤ r))).isEmpty then []
              else 0 :: sortAsc (requests.filter (fun r => decide (head ≤ r)))),
         total_seek
           (head :: sortDesc (requests.filter (fun r => decide (r < head)))
            ++ (if (requests.filter (fun r => decide (head ≤ r))).isEmpty then []
                else 0
                  :: sortAsc (requests.filter (fun r => decide (head ≤ r)))))) := by
  have hne : ("left" : String) ≠ "right" := by decide
  simp only [scan, if_neg hne, filter_sortAsc, sortDesc_sortAsc, sortAsc_isEmpty,
    List.singleton_append, List.cons_append, List.nil_append]

theorem c_scan_eq (head : Int) (requests : List Int) (disk_size : Int) :
    c_scan head requests disk_size
      = (head :: sortAsc (requests.filter (fun r => decide (head ≤ r)))
          ++ (if (requests.filter (fun r => decide (r < head))).isEmpty then []
              else (disk_size - 1) :: 0
                :: sortAsc (requests.filter (fun r => decide (r < head)))),
         total_seek
           (head :: sortAsc (requests.filter (fun r => decide (head ≤ r)))
            ++ (if (requests.filter (fun r => decide (r < head))).isEmpty then []
                else (disk_size - 1) :: 0
                  :: sortAsc (requests.filter (fun r => decide (r < head)))))) := by
  simp only [c_scan, filter_sortAsc, sortAsc_isEmpty,
    List.singleton_append, List.cons_append, List.nil_append]

theorem c_look_eq (head : Int) (requests : List Int) (disk_size : Int) :
    c_look head requests disk_size
      = (head :: sortAsc (requests.filter (fun r => decide (head ≤ r)))
          ++ sortAsc (requests.filter (fun r => decide (r < head))),
         total_seek
           (head :: sortAsc (requests.filter (fun r => decide (head ≤ r)))
            ++ sortAsc (requests.filter (fun r => decide (r < head))))) := by
  have hcase : (if (requests.filter (fun r => decide (r < head))).isEmpty then []
        else sortAsc (requests.filter (fun r => decide (r < head))))
      = sortAsc (requests.filter (fun r => decide (r < head))) := by
    by_cases h : (requests.filter (fun r => decide (r < head))).isEmpty
    · rw [if_pos h]
      rw [List.isEmpty_iff] at h
      rw [h]
      rfl
    · rw [if_neg h]
  simp only [c_look, filter_sortAsc, sortAsc_isEmpty,
    List.singleton_append, List.cons_append, List.nil_append, hcase]

/-- The `else` branch of `scan` is taken for every direction other than
`"right"`, and its body is exactly the `"left"` behaviour. -/
theorem scan_of_ne_right {direction : String} (head : Int) (requests : List Int)
    (disk_size : Int) (hdir : direction ≠ "right") :
    scan head requests disk_size direction = scan head requests disk_size "left" := by
  have hne : ("left" : String) ≠ "right" := by decide
  simp only [scan, if_neg hdir, if_neg hne]

theorem pair_spec (h : Int) (t : List Int) :
    0 ≤ total_seek (h :: t)
      ∧ (total_seek (h :: t) = 0 ↔ ∀ x ∈ h :: t, x = h) :=
  ⟨total_seek_nonneg _, total_seek_cons_eq_zero_iff h t⟩

theorem parts_perm_asc_desc (h : Int) (rs : List Int) :
    (sortAsc (rs.filter (fun r => decide (h ≤ r)))
      ++ sortDesc (rs.filter (fun r => decide (r < h)))).Perm rs :=
  ((sortAsc_perm _).append (sortDesc_perm _)).trans (filter_partition_perm h rs)

theorem parts_perm_desc_asc (h : Int) (rs : List Int) :
    (sortDesc (rs.filter (fun r => decide (r < h)))
      ++ sortAsc (rs.filter (fun r => decide (h ≤ r)))).Perm rs :=
  List.perm_append_comm.trans (parts_perm_asc_desc h rs)

theorem parts_perm_asc_asc (h : Int) (rs : List Int) :
    (sortAsc (rs.filter (fun r => decide (h ≤ r)))
      ++ sortAsc (rs.filter (fun r => decide (r < h)))).Perm rs :=
  ((sortAsc_perm _).append (sortAsc_perm _)).trans (filter_partition_perm h rs)

theorem filter_ge_perm_of_no_lt (h : Int) (rs : List Int)
    (hemp : (rs.filter (fun r => decide (r < h))).isEmpty) :
    (rs.filter (fun r => decide (h ≤ r))).Perm rs := by
  have h0 : rs.filter (fun r => decide (r < h)) = [] := List.isEmpty_iff.mp hemp
  have := filter_partition_perm h rs
  rw [h0, List.append_nil] at this
  exact this

/-! ### Claim theorems -/

/-- C1 (counterexample): on head 50, disk 200, requests
`[98,183,37,122,14,124,65,67]`, the code's SSTF does NOT return the
sequence `[50,65,67,37,14,98,122,124,183]` with total 239: from
cylinder 50 the closest request is 37 (distance 13), not 65
(distance 15). -/
theorem sstf_scenario_counterexample :
    sstf 50 [98, 183, 37, 122, 14, 124, 65, 67] 200
      ≠ ([50, 65, 67, 37, 14, 98, 122, 124, 183], 239) := by decide

/-- C1 (amended): on the concrete scenario head 50, disk 200, requests
`[98,183,37,122,14,124,65,67]`, SSTF returns the seek sequence
`[50,37,14,65,67,98,122,124,183]` and total seek distance 205. -/
theorem sstf_scenario_amended :
    sstf 50 [98, 183, 37, 122, 14, 124, 65, 67] 200
      = ([50, 37, 14, 65, 67, 98, 122, 124, 183], 205) := by decide

/-- C2 (counterexample): the algorithms do NOT copy the request queue
before sorting or removing: `sstf` drains the caller's list and
`scan`/`c_scan`/`c_look` sort it in place, so the argument is changed. -/
theorem copies_queue_counterexample :
    sstfArg 0 [3] 10 ≠ [3]
      ∧ scanArg 5 [7, 3] 10 "right" ≠ [7, 3]
      ∧ c_scanArg 5 [7, 3] 10 ≠ [7, 3]
      ∧ c_lookArg 5 [7, 3] 10 ≠ [7, 3] := by decide

/-- C2 (amended): `fcfs` leaves the caller's queue unchanged, `sstf`
leaves it empty, and `scan`/`c_scan`/`c_look` leave it sorted
ascending.  Each algorithm is a pure function of its input value, and
re-running `fcfs`/`scan`/`c_scan`/`c_look` on the mutated argument
reproduces the first result, while re-running `sstf` on its drained
argument yields `([head], 0)`. -/
theorem mutation_amended (h d : Int) (rs : List Int) (dir : String) :
    fcfsArg h rs d = rs
  ∧ sstfArg h rs d = []
  ∧ scanArg h rs d dir = sortAsc rs
  ∧ c_scanArg h rs d = sortAsc rs
  ∧ c_lookArg h rs d = sortAsc rs
  ∧ fcfs h (fcfsArg h rs d) d = fcfs h rs d
  ∧ scan h (scanArg h rs d dir) d dir = scan h rs d dir
  ∧ c_scan h (c_scanArg h rs d) d = c_scan h rs d
  ∧ c_look h (c_lookArg h rs d) d = c_look h rs d
  ∧ sstf h (sstfArg h rs d) d = ([h], 0) := by
  refine ⟨rfl, sstfArg_eq_nil h rs d, rfl, rfl, rfl, rfl, ?_, ?_, ?_, ?_⟩
  · simp only [scanArg, scan, sortAsc_idem]
  · simp only [c_scanArg, c_scan, sortAsc_idem]
  · simp only [c_lookArg, c_look, sortAsc_idem]
  · rw [sstfArg_eq_nil h rs d]
    rfl

/-- C3 (counterexample): on the valid input head 50, disk 200,
requests `[50]`, FCFS returns total seek 0 with a sequence of
length 2, so total 0 does not imply a length-1 sequence. -/
theorem zero_seek_len1_counterexample :
    (0 : Int) < 200 ∧ 0 ≤ (50 : Int) ∧ (50 : Int) < 200
      ∧ (fcfs 50 [50] 200).2 = 0
      ∧ (fcfs 50 [50] 200).1.length ≠ 1 := by decide

/-- C3 (amended): for every algorithm and every input, the returned
total seek distance is non-negative, and it equals 0 exactly when
every cylinder of the returned seek sequence equals the head position
(in particular when the request queue is empty). -/
theorem total_seek_zero_amended (h d : Int) (rs : List Int) (dir : String) :
    (0 ≤ (fcfs h rs d).2
      ∧ ((fcfs h rs d).2 = 0 ↔ ∀ x ∈ (fcfs h rs d).1, x = h))
  ∧ (0 ≤ (sstf h rs d).2
      ∧ ((sstf h rs d).2 = 0 ↔ ∀ x ∈ (sstf h rs d).1, x = h))
  ∧ (0 ≤ (scan h rs d dir).2
      ∧ ((scan h rs d dir).2 = 0 ↔ ∀ x ∈ (scan h rs d dir).1, x = h))
  ∧ (0 ≤ (c_scan h rs d).2
      ∧ ((c_scan h rs d).2 = 0 ↔ ∀ x ∈ (c_scan h rs d).1, x = h))
  ∧ (0 ≤ (c_look h rs d).2
      ∧ ((c_look h rs d).2 = 0 ↔ ∀ x ∈ (c_look h rs d).1, x = h)) := by
  refine ⟨pair_spec h rs, pair_spec h _, ?_, ?_, ?_⟩
  · by_cases hdir : dir = "right"
    · subst hdir
      rw [scan_right_eq]
      exact pair_spec h _
    · rw [scan_of_ne_right h rs d hdir, scan_left_eq]
      exact pair_spec h _
  · rw [c_scan_eq]
    exact pair_spec h _
  · rw [c_look_eq]
    exact pair_spec h _

/-- C4 (counterexample): for SCAN toward-min (`direction = "left"`)
with head 5, disk 10, requests `[5]`, the request equal to the head is
serviced AFTER the boundary stop 0, not during the initial sweep: the
sequence is `[5, 0, 5]` and the request's occurrence in the serviced
tail does not precede the boundary's. -/
theorem scan_head_equal_counterexample :
    (scan 5 [5] 10 "left").1 = [5, 0, 5]
      ∧ ¬ ((scan 5 [5] 10 "left").1.drop 1).indexOf (5 : Int)
          < ((scan 5 [5] 10 "left").1.drop 1).indexOf (0 : Int) := by decide

/-- C4 (amended): in both directions every request equal to the head
is grouped with the ascending (`≥ head`) set and visited once per
occurrence; for toward-max that set is the forward set serviced before
any boundary stop, but for toward-min it is the reverse-direction set,
serviced after the boundary stop 0 whenever it is non-empty. -/
theorem scan_head_equal_amended (h d : Int) (rs : List Int) :
    (scan h rs d "right").1
      = h :: sortAsc (rs.filter (fun r => decide (h ≤ r)))
          ++ (if (rs.filter (fun r => decide (r < h))).isEmpty then []
              else (d - 1) :: sortDesc (rs.filter (fun r => decide (r < h))))
  ∧ (scan h rs d "left").1
      = h :: sortDesc (rs.filter (fun r => decide (r < h)))
          ++ (if (rs.filter (fun r => decide (h ≤ r))).isEmpty then []
              else 0 :: sortAsc (rs.filter (fun r => decide (h ≤ r))))
  ∧ (rs.filter (fun r => decide (h ≤ r))).count h = rs.count h
  ∧ (rs.filter (fun r => decide (r < h))).count h = 0 := by
  refine ⟨?_, ?_, ?_, ?_⟩
  · rw [scan_right_eq]
  · rw [scan_left_eq]
  · exact List.count_filter (by simp)
  · refine List.count_eq_zero.mpr ?_
    intro hmem
    have hlt := of_decide_eq_true (List.mem_filter.mp hmem).2
    exact lt_irrefl h hlt

/-- C5: every algorithm consumes every request exactly once: as a
multiset, the returned sequence is the head position plus the input
requests plus exactly the synthetic boundary stops (`disk_size - 1`
for SCAN toward-max when a request lies below the head, `0` for SCAN
toward-min when a request lies at or above the head, both for C-SCAN
when a request lies below the head, none for FCFS/SSTF/C-LOOK). -/
theorem consume_exactly_once (h d : Int) (rs : List Int) :
    (fcfs h rs d).1 = h :: rs
  ∧ (sstf h rs d).1.Perm (h :: rs)
  ∧ (scan h rs d "right").1.Perm
      ((h :: rs) ++ (if (rs.filter (fun r => decide (r < h))).isEmpty then []
        else [d - 1]))
  ∧ (scan h rs d "left").1.Perm
      ((h :: rs) ++ (if (rs.filter (fun r => decide (h ≤ r))).isEmpty then []
        else [0]))
  ∧ (c_scan h rs d).1.Perm
      ((h :: rs) ++ (if (rs.filter (fun r => decide (r < h))).isEmpty then []
        else [d - 1, 0]))
  ∧ (c_look h rs d).1.Perm (h :: rs) := by
  refine ⟨rfl, sstf_fst_perm h rs d, ?_, ?_, ?_, ?_⟩
  · rw [scan_right_eq]
    by_cases hemp : (rs.filter (fun r => decide (r < h))).isEmpty
    · rw [if_pos hemp, if_pos hemp, List.append_nil, List.append_nil]
      exact ((sortAsc_perm _).trans (filter_ge_perm_of_no_lt h rs hemp)).cons h
    · rw [if_neg hemp, if_neg hemp]
      refine List.Perm.cons h ?_
      exact List.perm_middle.trans
        (((parts_perm_asc_desc h rs).cons _).trans
          (List.perm_append_singleton _ _).symm)
  · rw [scan_left_eq]
    by_cases hemp : (rs.filter (fun r => decide (h ≤ r))).isEmpty
    · rw [if_pos hemp, if_pos hemp, List.append_nil, List.append_nil]
      have h0 : rs.filter (fun r => decide (h ≤ r)) = [] := List.isEmpty_iff.mp hemp
      have hpart := filter_partition_perm h rs
      rw [h0, List.nil_append] at hpart
      exact ((sortDesc_perm _).trans hpart).cons h
    · rw [if_neg hemp, if_neg hemp]
      refine List.Perm.cons h ?_
      exact List.perm_middle.trans
        (((parts_perm_desc_asc h rs).cons _).trans
          (List.perm_append_singleton _ _).symm)
  · rw [c_scan_eq]
    by_cases hemp : (rs.filter (fun r => decide (r < h))).isEmpty
    · rw [if_pos hemp, if_pos hemp, List.append_nil, List.append_nil]
      exact ((sortAsc_perm _).trans (filter_ge_perm_of_no_lt h rs hemp)).cons h
    · rw [if_neg hemp, if_neg hemp]
      refine List.Perm.cons h ?_
      refine List.perm_middle.trans ?_
      refine (List.Perm.cons _ (List.perm_middle.trans
        ((parts_perm_asc_asc h rs).cons 0))).trans ?_
      exact (List.perm_append_comm :
        (([d - 1, 0] : List Int) ++ rs).Perm (rs ++ [d - 1, 0]))
  · rw [c_look_eq]
    exact (parts_perm_asc_asc h rs).cons h

/-- C6: the C-SCAN sequence is the head, then the `≥ head` requests in
ascending order, then — exactly when some request lies below the
head — the adjacent boundary pair `disk_size - 1, 0` followed by the
`< head` requests in ascending order; no boundary value is appended
when no request lies below the head. -/
theorem c_scan_boundary_pair (h d : Int) (rs : List Int) :
    (c_scan h rs d).1
      = h :: sortAsc (rs.filter (fun r => decide (h ≤ r)))
          ++ (if (rs.filter (fun r => decide (r < h))).isEmpty then []
              else (d - 1) :: 0
                :: sortAsc (rs.filter (fun r => decide (r < h)))) := by
  rw [c_scan_eq]

/-- C7: FCFS returns the head position followed by the request queue
in its original order: the sequence is `head :: requests` and its tail
is exactly the input. -/
theorem fcfs_order_preserved (h d : Int) (rs : List Int) :
    (fcfs h rs d).1 = h :: rs ∧ (fcfs h rs d).1.drop 1 = rs :=
  ⟨rfl, rfl⟩

/-- C8: for every algorithm, every head position, every disk size and
every direction, an empty request queue yields the sequence `[head]`
and total seek 0. -/
theorem empty_queue_all_algorithms (h d : Int) (dir : String) :
    fcfs h [] d = ([h], 0)
  ∧ sstf h [] d = ([h], 0)
  ∧ scan h [] d dir = ([h], 0)
  ∧ c_scan h [] d = ([h], 0)
  ∧ c_look h [] d = ([h], 0) := by
  refine ⟨rfl, rfl, ?_, rfl, rfl⟩
  by_cases hdir : dir = "right"
  · subst hdir
    rfl
  · rw [scan_of_ne_right h [] d hdir]
    rfl

/-- C9: `scan` has no error branch on the direction parameter: every
value other than `"right"` selects the toward-min (`"left"`)
behaviour, returning the same sequence and total seek. -/
theorem scan_direction_else_left (h d : Int) (rs : List Int) (dir : String)
    (hdir : dir ≠ "right") :
    scan h rs d dir = scan h rs d "left" :=
  scan_of_ne_right h rs d hdir

/-- C9 (witness): the direction string `"up"` behaves like `"left"`. -/
theorem scan_direction_else_left_witness :
    ("up" : String) ≠ "right"
      ∧ scan 5 [3, 7] 10 "up" = scan 5 [3, 7] 10 "left" :=
  ⟨by decide, scan_direction_else_left 5 10 [3, 7] "up" (by decide)⟩

/-- C10: the C-LOOK sequence visits the `≥ head` requests ascending
then the `< head` requests ascending, and the C-SCAN sequence is the
C-LOOK sequence with the boundary pair `disk_size - 1, 0` inserted
after the `≥ head` block exactly when some request lies below the
head; with no such request the two sequences are identical. -/
theorem c_look_refines_c_scan (h d : Int) (rs : List Int) :
    (c_look h rs d).1
      = h :: sortAsc (rs.filter (fun r => decide (h ≤ r)))
          ++ sortAsc (rs.filter (fun r => decide (r < h)))
  ∧ (c_scan h rs d).1
      = (c_look h rs d).1.take
          ((rs.filter (fun r => decide (h ≤ r))).length + 1)
        ++ (if (rs.filter (fun r => decide (r < h))).isEmpty then []
            else [d - 1, 0])
        ++ (c_look h rs d).1.drop
          ((rs.filter (fun r => decide (h ≤ r))).length + 1) := by
  have hA1 : (h :: sortAsc (rs.filter (fun r => decide (h ≤ r)))).length
      = (rs.filter (fun r => decide (h ≤ r))).length + 1 := by
    simp [sortAsc_length]
  have hlook : (c_look h rs d).1
      = h :: sortAsc (rs.filter (fun r => decide (h ≤ r)))
          ++ sortAsc (rs.filter (fun r => decide (r < h))) := by
    rw [c_look_eq]
  have hcs : (c_scan h rs d).1
      = h :: sortAsc (rs.filter (fun r => decide (h ≤ r)))
          ++ (if (rs.filter (fun r => decide (r < h))).isEmpty then []
              else (d - 1) :: 0
                :: sortAsc (rs.filter (fun r => decide (r < h)))) := by
    rw [c_scan_eq]
  refine ⟨hlook, ?_⟩
  rw [hcs, hlook, List.take_left' hA1, List.drop_left' hA1]
  by_cases hemp : (rs.filter (fun r => decide (r < h))).isEmpty
  · have h0 : rs.filter (fun r => decide (r < h)) = [] := List.isEmpty_iff.mp hemp
    rw [if_pos hemp, if_pos hemp, h0]
    simp [sortAsc]
  · rw [if_neg hemp, if_neg hemp]
    simp
